import Mathlib

/-!
Shallow embedding of the NSE stealth-accumulation scanner's core pipeline
(the `POST` handler of the analyze route, together with its helpers
`safeNumber` and the per-date parsing step).

Modelling choices:
* JavaScript numbers are embedded as `ℚ` (the arithmetic the claims are
  about is exact; the code's guards make every division non-degenerate).
* A CSV cell, after `String(v).replace(/,/g,'')` and `Number(...)`, is
  either absent (`v == null`), a non-finite parse (NaN/Infinity), or a
  finite numeric value; the inductive `Field` records exactly that
  trichotomy and `safeNumber` mirrors the source's branches.
* A JavaScript `Map` is embedded as an insertion-ordered association
  list: `Map.get` is `mapGet`, `Map.set` is `mapSet` (update in place
  when the key exists, append otherwise), and `Map.entries` iteration is
  the list order.
* `dayjs` dates are embedded as the offset `k` (in calendar days) of the
  cursor behind "today"; `cursor.day()` (0 = Sunday .. 6 = Saturday) at
  offset `k` from a start weekday `w0` is `(w0 + 6 * k) % 7`.
* The network is an oracle `fetch : ℕ → FetchOutcome` giving, for each
  day offset, what the fetch/unzip/parse of that date's archive did.
-/

namespace NSE

/-- Outcome of `Number(String(v).replace(/,/g,''))` on one CSV cell:
the cell was missing (`v == null`), parsed to a non-finite number
(NaN or ±Infinity), or parsed to a finite value `q`. -/
inductive Field where
  | missing : Field
  | nonfinite : Field
  | num : ℚ → Field
deriving DecidableEq

/-- `safeNumber` from the source: `null` becomes 0, a non-finite parse
becomes 0, a finite parse is returned as is. -/
def safeNumber : Field → ℚ
  | .missing => 0
  | .nonfinite => 0
  | .num q => q

/-- One parsed CSV record (the `Row` type of the source). -/
structure Row where
  SYMBOL : String
  SERIES : String
  OPEN : Field
  HIGH : Field
  LOW : Field
  CLOSE : Field
  TOTTRDQTY : Field
  TOTTRDVAL : Field
deriving DecidableEq

/-- `Map.get`: first (and, by `mapSet`'s construction, only) binding of `k`. -/
def mapGet {α : Type} (m : List (String × α)) (k : String) : Option α :=
  (m.find? (fun p => p.1 == k)).map (fun p => p.2)

/-- `Map.set`: replace the binding in place when the key is present,
append a new binding otherwise (JavaScript `Map` insertion-order
semantics; a `Map` holds each key at most once, so replacing the first
binding is replacing the binding). -/
def mapSet {α : Type} : List (String × α) → String → α → List (String × α)
  | [], k, v => [(k, v)]
  | p :: t, k, v => if p.1 == k then (k, v) :: t else p :: mapSet t k v

/-- One day's per-symbol map (`Map<string, Row>` in the source). -/
abbrev DayMap := List (String × Row)

/-- The per-date map construction: keep only rows whose `SERIES` is
`"EQ"`, last row wins on a duplicate symbol. -/
def buildDayMap (records : List Row) : DayMap :=
  records.foldl
    (fun m r => if r.SERIES == "EQ" then mapSet m r.SYMBOL r else m) []

/-- The `Aggregated` accumulator of the source.  `firstClose` and
`lastClose` are `undefined` until first set, hence `Option`. -/
structure Aggregated where
  symbol : String
  sumVolume : ℚ
  sumTradedValue : ℚ
  sumMFVolume : ℚ
  firstClose : Option ℚ
  lastClose : Option ℚ
  days : ℕ
deriving DecidableEq

/-- Accumulator map (`Map<string, Aggregated>`). -/
abbrev AggMap := List (String × Aggregated)

/-- The fresh accumulator created on a symbol's first contribution. -/
def defaultAgg (symbol : String) : Aggregated :=
  { symbol := symbol, sumVolume := 0, sumTradedValue := 0,
    sumMFVolume := 0, firstClose := none, lastClose := none, days := 0 }

/-- The data-quality gate of the fold: a row is dropped when
`volume <= 0 || high <= 0 || low <= 0`. -/
def badRow (r : Row) : Bool :=
  safeNumber r.TOTTRDQTY ≤ 0 ∨ safeNumber r.HIGH ≤ 0 ∨ safeNumber r.LOW ≤ 0

/-- The Money Flow Multiplier as computed inline in the source:
`range === 0 ? 0 : ((close - low) - (high - close)) / range`. -/
def mfmOf (high low close : ℚ) : ℚ :=
  if high - low = 0 then 0 else ((close - low) - (high - close)) / (high - low)

/-- The body of the fold on a row that passed the gate: add volume,
traded value and money-flow volume, bump `days`, set `firstClose` only
when still unset, always overwrite `lastClose`. -/
def updateAgg (a : Aggregated) (r : Row) : Aggregated :=
  let close := safeNumber r.CLOSE
  let volume := safeNumber r.TOTTRDQTY
  let mfv := mfmOf (safeNumber r.HIGH) (safeNumber r.LOW) close * volume
  { a with
    sumVolume := a.sumVolume + volume
    sumTradedValue := a.sumTradedValue + safeNumber r.TOTTRDVAL
    sumMFVolume := a.sumMFVolume + mfv
    days := a.days + 1
    firstClose := if a.firstClose = none then some close else a.firstClose
    lastClose := some close }

/-- Folding one `(symbol, row)` entry into the accumulator map. -/
def foldRow (agg : AggMap) (symbol : String) (r : Row) : AggMap :=
  if badRow r then agg
  else mapSet agg symbol
    (updateAgg ((mapGet agg symbol).getD (defaultAgg symbol)) r)

/-- Folding one session's map (iterated in insertion order). -/
def foldDay (agg : AggMap) (m : DayMap) : AggMap :=
  m.foldl (fun acc p => foldRow acc p.1 p.2) agg

/-- Folding a list of sessions, already in chronological order. -/
def foldDays (agg : AggMap) (l : List DayMap) : AggMap :=
  l.foldl foldDay agg

/-- The aggregation phase: the locator's most-recent-first list is
reversed (`[...dailyMaps].reverse()`) and folded chronologically. -/
def aggregate (dailyMaps : List DayMap) : AggMap :=
  foldDays [] dailyMaps.reverse

/-- The CMF of one accumulator: `sumVolume === 0 ? 0 : sumMFVolume / sumVolume`. -/
def cmfOf (a : Aggregated) : ℚ :=
  if a.sumVolume = 0 then 0 else a.sumMFVolume / a.sumVolume

/-- One output row (the object literal built in the `.map` step). -/
structure RankedStock where
  symbol : String
  cmf : ℚ
  totalTradedValue : ℚ
  totalVolume : ℚ
  daysCount : ℕ
  priceChange5dPercent : ℚ
deriving DecidableEq

/-- The `.map` step of the ranker.  The price-change guard mirrors the
JavaScript truthiness test `a.firstClose && a.lastClose && a.firstClose > 0`
(an `undefined` or zero close short-circuits to 0). -/
def toResult (a : Aggregated) : RankedStock :=
  { symbol := a.symbol
    cmf := cmfOf a
    totalTradedValue := a.sumTradedValue
    totalVolume := a.sumVolume
    daysCount := a.days
    priceChange5dPercent :=
      match a.firstClose, a.lastClose with
      | some fc, some lc =>
        if fc ≠ 0 ∧ lc ≠ 0 ∧ 0 < fc then ((lc - fc) / fc) * 100 else 0
      | _, _ => 0 }

/-- The coverage floor of the filter: `Math.max(3, Math.min(5, dailyMaps.length))`. -/
def coverageFloor (sessionsFetched : ℕ) : ℕ :=
  max 3 (min 5 sessionsFetched)

/-- The ranker's input: accumulator values in insertion order, filtered
by the coverage floor, mapped to output rows. -/
def rankerInput (dailyMaps : List DayMap) : List RankedStock :=
  (((aggregate dailyMaps).map (fun p => p.2)).filter
    (fun a => coverageFloor dailyMaps.length ≤ a.days)).map toResult

/-- The comparator's score: `cmf * (1 + 0.15 * log10(1 + totalTradedValue))`.
`Math.log10` is transcendental, so it is a parameter of the embedding. -/
def score (log10 : ℚ → ℚ) (x : RankedStock) : ℚ :=
  x.cmf * (1 + (15 / 100) * log10 (1 + x.totalTradedValue))

/-- The in-place `sort` with comparator `scoreY - scoreX`: a stable sort
into descending score order. -/
def sortByScore (log10 : ℚ → ℚ) (l : List RankedStock) : List RankedStock :=
  l.mergeSort (fun x y => score log10 y ≤ score log10 x)

/-- The success payload of the route. -/
structure Output where
  daysAnalyzed : ℕ
  topStocks : List RankedStock
deriving DecidableEq

/-- The error message of the sole hard failure path (HTTP 502 in the source). -/
def noSessionsMessage : String := "No recent trading days found in NSE archives."

/-- Everything after the locator loop: fail when no session was
retrieved, otherwise aggregate, filter, sort, and keep the first 10. -/
def runPipeline (dailyMaps : List DayMap) (log10 : ℚ → ℚ) :
    Except String Output :=
  if dailyMaps.length = 0 then .error noSessionsMessage
  else .ok { daysAnalyzed := dailyMaps.length
             topStocks := (sortByScore log10 (rankerInput dailyMaps)).take 10 }

/-- What fetching, unzipping and parsing one date's archive did.  The
first four constructors are the failure modes the per-date `try`/`catch`
and the `if (!buf) continue` guard turn into a skip. -/
inductive FetchOutcome where
  | throwNetwork : FetchOutcome
  | notOk : FetchOutcome
  | emptyZip : FetchOutcome
  | parseError : FetchOutcome
  | ok : List Row → FetchOutcome

/-- The per-date processing collapses every failure mode to "no data
for this date"; only a successful parse yields records. -/
def processDate : FetchOutcome → Option (List Row)
  | .ok records => some records
  | _ => none

/-- `neededDays` of the source. -/
def neededDays : ℕ := 5

/-- `maxLookback` of the source ("include weekends/holidays buffer"). -/
def maxLookback : ℕ := 12

/-- Locator state: `found` is `dailyMaps` (most-recent-first), and
`attempts` is a ghost trace of the day offsets on which a fetch was
actually issued (non-weekend days reached inside the loop). -/
structure LocatorState where
  found : List DayMap
  attempts : List ℕ
deriving DecidableEq

/-- One run of the `while` loop, with fuel (the loop body runs at most
`neededDays + maxLookback + 1` times, since `k` grows by one per
iteration and the guard requires `found.length + k ≤ 17`).
`k` is the days-back offset of the cursor; the guard is the source's
`dailyMaps.length < neededDays && dailyMaps.length + diff <= neededDays + maxLookback`,
then the cursor steps back one day, weekends are `continue`d, and a
fetched day is pushed only when its map is non-empty. -/
def locateLoop (fetch : ℕ → FetchOutcome) (w0 : ℕ) :
    ℕ → ℕ → LocatorState → LocatorState
  | 0, _, st => st
  | fuel + 1, k, st =>
    if st.found.length < neededDays ∧
        st.found.length + k ≤ neededDays + maxLookback then
      if (w0 + 6 * (k + 1)) % 7 = 6 ∨ (w0 + 6 * (k + 1)) % 7 = 0 then
        locateLoop fetch w0 fuel (k + 1) st
      else
        match processDate (fetch (k + 1)) with
        | none =>
          locateLoop fetch w0 fuel (k + 1)
            { st with attempts := st.attempts ++ [k + 1] }
        | some records =>
          if 0 < (buildDayMap records).length then
            locateLoop fetch w0 fuel (k + 1)
              { found := st.found ++ [buildDayMap records],
                attempts := st.attempts ++ [k + 1] }
          else
            locateLoop fetch w0 fuel (k + 1)
              { st with attempts := st.attempts ++ [k + 1] }
    else st

/-- The Session Locator: run the loop from today (`k = 0`) with enough
fuel for the calendar-day ceiling. -/
def locate (fetch : ℕ → FetchOutcome) (w0 : ℕ) : LocatorState :=
  locateLoop fetch w0 (neededDays + maxLookback + 1) 0 ⟨[], []⟩

/-- The whole `POST` handler: locate sessions, then run the pipeline. -/
def runScan (fetch : ℕ → FetchOutcome) (w0 : ℕ) (log10 : ℚ → ℚ) :
    Except String Output :=
  runPipeline (locate fetch w0).found log10

/-! ### Per-symbol view of the fold

The accumulator map is a parallel composition of independent per-symbol
folds; the following definitions name the projection of the fold onto a
single symbol, and the row statistics it accumulates. -/

/-- What one `(symbol, row)` entry does to a single symbol's accumulator
slot: nothing when the row fails the data-quality gate, otherwise update
(creating the accumulator on first touch). -/
def stepRow (s : String) (o : Option Aggregated) (r : Row) : Option Aggregated :=
  if badRow r then o else some (updateAgg (o.getD (defaultAgg s)) r)

/-- The rows of one session belonging to symbol `s`, in iteration order. -/
def rowsFor (s : String) (m : DayMap) : List Row :=
  (m.filter (fun p => p.1 == s)).map (fun p => p.2)

/-- All rows for symbol `s` across a list of sessions, in fold order. -/
def symRows (s : String) (l : List DayMap) : List Row :=
  (l.map (rowsFor s)).flatten

/-- The rows that pass the data-quality gate. -/
def passRows (rs : List Row) : List Row := rs.filter (fun r => !badRow r)

/-- Closes of the gate-passing rows, in order. -/
def closesOf (rs : List Row) : List ℚ :=
  (passRows rs).map (fun r => safeNumber r.CLOSE)

/-- Volumes of the gate-passing rows. -/
def volumesOf (rs : List Row) : List ℚ :=
  (passRows rs).map (fun r => safeNumber r.TOTTRDQTY)

/-- Traded values of the gate-passing rows. -/
def tradedValuesOf (rs : List Row) : List ℚ :=
  (passRows rs).map (fun r => safeNumber r.TOTTRDVAL)

/-- Money-flow volumes of the gate-passing rows. -/
def mfvsOf (rs : List Row) : List ℚ :=
  (passRows rs).map
    (fun r => mfmOf (safeNumber r.HIGH) (safeNumber r.LOW) (safeNumber r.CLOSE)
      * safeNumber r.TOTTRDQTY)

/-- Left-biased choice on optional closes: the first-set value wins. -/
def firstOr (x y : Option ℚ) : Option ℚ :=
  match x with
  | some c => some c
  | none => y

/-- The closes that symbol `s` contributes across a run whose locator
output is `dailyMaps` (most-recent-first): gate-passing rows for `s`, in
chronological order. -/
def chronCloses (s : String) (dailyMaps : List DayMap) : List ℚ :=
  closesOf (symRows s dailyMaps.reverse)

/-- Modelled from the spec (claim wording, for comparison with the
code): the number of sessions that contributed at least one row to the
aggregator, i.e. sessions containing at least one gate-passing row. -/
def specContributingSessions (dailyMaps : List DayMap) : ℕ :=
  (dailyMaps.filter (fun m => m.any (fun p => !badRow p.2))).length

/-! ### Concrete fixtures for witnesses and counterexamples -/

/-- A well-formed row: low 5 ≤ close 7 ≤ high 10, volume 2, value 3. -/
def rowGood : Row :=
  ⟨"A", "EQ", .num 6, .num 10, .num 5, .num 7, .num 2, .num 3⟩

/-- A row whose close 20 lies above its high 10: passes the gate
(volume 1, high 10, low 5 all positive) but has multiplier 5. -/
def rowWildClose : Row :=
  ⟨"A", "EQ", .num 6, .num 10, .num 5, .num 20, .num 1, .num 0⟩

/-- A row with zero volume: fails the gate, contributes nothing. -/
def rowZeroVolume : Row :=
  ⟨"X", "EQ", .num 6, .num 10, .num 5, .num 7, .num 0, .num 3⟩

/-- A gate-passing row with close 0 and negative traded value. -/
def rowNegValue : Row :=
  ⟨"A", "EQ", .num 6, .num 10, .num 5, .num 0, .num 2, .num (-1)⟩

/-- A second well-formed row for the same symbol, close 8, volume 3. -/
def rowGood2 : Row :=
  ⟨"A", "EQ", .num 7, .num 10, .num 5, .num 8, .num 3, .num 4⟩

/-- A flat-session row: high = low = close = 5 (range 0). -/
def rowFlat : Row :=
  ⟨"A", "EQ", .num 5, .num 5, .num 5, .num 5, .num 2, .num 3⟩

/-- An oracle for which every date's fetch fails. -/
def alwaysFail : ℕ → FetchOutcome := fun _ => .throwNetwork

/-- An oracle for which every date's fetch returns a non-success
status: a different failure mode from alwaysFail with the same
per-date skip result. -/
def alwaysNotOk : ℕ → FetchOutcome := fun _ => .notOk

/-- An oracle that returns the same single well-formed record every day. -/
def alwaysGood : ℕ → FetchOutcome := fun _ => .ok [rowGood]

/-- An oracle that returns a single zero-volume record every day: each
session's map is non-empty, yet no row ever passes the gate. -/
def alwaysZeroVolume : ℕ → FetchOutcome := fun _ => .ok [rowZeroVolume]

/-- A placeholder for the log10 parameter in concrete evaluations. -/
def zeroLog : ℚ → ℚ := fun _ => 0

/-- The one-symbol session map produced from rowGood. -/
def dayGood : DayMap := [("A", rowGood)]

/-- The one-symbol session map produced from rowZeroVolume. -/
def dayZeroVol : DayMap := [("X", rowZeroVolume)]

/-- The output row of a five-session alwaysGood run. -/
def stockGood : RankedStock := ⟨"A", -1/5, 15, 10, 5, 0⟩

/-- The full output of a five-session alwaysGood run from a Friday. -/
def outGood : Output := ⟨5, [stockGood]⟩

/-! ## Lemmas: association-list semantics of the JavaScript Map -/

theorem mapGet_nil {α : Type} (s : String) : mapGet ([] : List (String × α)) s = none := rfl

theorem mapGet_cons {α : Type} (p : String × α) (t : List (String × α)) (s : String) :
    mapGet (p :: t) s = if p.1 = s then some p.2 else mapGet t s := by
  simp only [mapGet, List.find?_cons]
  by_cases h : p.1 = s
  · simp [h]
  · have hb : (p.1 == s) = false := by simpa using h
    simp [hb, h]

theorem mapGet_mapSet {α : Type} (m : List (String × α)) (k s : String) (v : α) :
    mapGet (mapSet m k v) s = if s = k then some v else mapGet m s := by
  induction m with
  | nil =>
    rw [mapSet, mapGet_cons]
    by_cases h : s = k
    · rw [if_pos h, if_pos h.symm]
    · rw [if_neg h, if_neg (fun hh => h hh.symm), mapGet_nil]
  | cons p t ih =>
    rw [mapSet]
    by_cases hp : p.1 = k
    · have hp' : (p.1 == k) = true := by simpa using hp
      rw [if_pos hp', mapGet_cons]
      by_cases hs : s = k
      · rw [if_pos hs.symm, if_pos hs]
      · rw [if_neg (fun hh : (k, v).1 = s => hs hh.symm), if_neg hs, mapGet_cons,
          if_neg (fun hh : p.1 = s => hs (hp.symm.trans hh).symm)]
    · have hp' : (p.1 == k) = false := by simpa using hp
      rw [if_neg (by simp [hp']), mapGet_cons]
      by_cases hps : p.1 = s
      · have hs : ¬(s = k) := by rintro rfl; exact hp hps
        rw [if_pos hps, if_neg hs, mapGet_cons, if_pos hps]
      · rw [if_neg hps, ih, mapGet_cons, if_neg hps]

/-! ## Lemmas: projecting the fold onto one symbol -/

theorem mapGet_foldRow (agg : AggMap) (sym : String) (r : Row) (s : String) :
    mapGet (foldRow agg sym r) s
      = if s = sym then stepRow sym (mapGet agg sym) r else mapGet agg s := by
  unfold foldRow stepRow
  by_cases hb : badRow r
  · rw [if_pos hb, if_pos hb]
    by_cases h : s = sym
    · rw [if_pos h, h]
    · rw [if_neg h]
  · rw [if_neg hb, if_neg hb, mapGet_mapSet]

theorem rowsFor_cons (s : String) (p : String × Row) (t : DayMap) :
    rowsFor s (p :: t)
      = if p.1 = s then p.2 :: rowsFor s t else rowsFor s t := by
  unfold rowsFor
  by_cases h : p.1 = s
  · have h' : (p.1 == s) = true := by simpa using h
    simp [List.filter_cons, h', h]
  · have h' : (p.1 == s) = false := by simpa using h
    simp [List.filter_cons, h', h]

theorem mapGet_foldDay (agg : AggMap) (m : DayMap) (s : String) :
    mapGet (foldDay agg m) s = (rowsFor s m).foldl (stepRow s) (mapGet agg s) := by
  induction m generalizing agg with
  | nil => rfl
  | cons p t ih =>
    have hstep : foldDay agg (p :: t) = foldDay (foldRow agg p.1 p.2) t := rfl
    rw [hstep, ih, rowsFor_cons, mapGet_foldRow]
    by_cases h : p.1 = s
    · rw [if_pos h, if_pos h.symm, List.foldl_cons, h]
    · rw [if_neg h, if_neg (fun hh : s = p.1 => h hh.symm)]

theorem symRows_cons (s : String) (m : DayMap) (t : List DayMap) :
    symRows s (m :: t) = rowsFor s m ++ symRows s t := by
  unfold symRows
  rw [List.map_cons, List.flatten_cons]

theorem mapGet_foldDays (agg : AggMap) (l : List DayMap) (s : String) :
    mapGet (foldDays agg l) s = (symRows s l).foldl (stepRow s) (mapGet agg s) := by
  induction l generalizing agg with
  | nil => simp [foldDays, symRows]
  | cons m t ih =>
    have hstep : foldDays agg (m :: t) = foldDays (foldDay agg m) t := rfl
    rw [hstep, ih, symRows_cons, List.foldl_append, mapGet_foldDay]

theorem mapGet_aggregate (dailyMaps : List DayMap) (s : String) :
    mapGet (aggregate dailyMaps) s
      = (symRows s dailyMaps.reverse).foldl (stepRow s) none := by
  unfold aggregate
  rw [mapGet_foldDays]
  rfl

/-! ## Lemmas: the single-symbol fold, characterized exactly -/

theorem firstOr_none (x : Option ℚ) : firstOr x none = x := by cases x <;> rfl

theorem firstOr_some_left (c : ℚ) (y : Option ℚ) : firstOr (some c) y = some c := rfl

theorem firstOr_absorb (x : Option ℚ) (c : ℚ) (y : Option ℚ) :
    firstOr (firstOr x (some c)) y = firstOr x (some c) := by cases x <;> rfl

theorem getLast?_cons_eq_firstOr (c : ℚ) (l : List ℚ) :
    (c :: l).getLast? = firstOr l.getLast? (some c) := by
  rw [List.getLast?_cons]
  cases l.getLast? <;> rfl

theorem passRows_cons (r : Row) (t : List Row) :
    passRows (r :: t) = if badRow r then passRows t else r :: passRows t := by
  unfold passRows
  rw [List.filter_cons]
  cases hb : badRow r <;> simp [hb]

theorem closesOf_cons (r : Row) (t : List Row) :
    closesOf (r :: t)
      = if badRow r then closesOf t
        else safeNumber r.CLOSE :: closesOf t := by
  unfold closesOf
  by_cases hb : badRow r
  · rw [passRows_cons, if_pos hb, if_pos hb]
  · rw [passRows_cons, if_neg hb, if_neg hb, List.map_cons]

theorem volumesOf_cons (r : Row) (t : List Row) :
    volumesOf (r :: t)
      = if badRow r then volumesOf t
        else safeNumber r.TOTTRDQTY :: volumesOf t := by
  unfold volumesOf
  by_cases hb : badRow r
  · rw [passRows_cons, if_pos hb, if_pos hb]
  · rw [passRows_cons, if_neg hb, if_neg hb, List.map_cons]

theorem tradedValuesOf_cons (r : Row) (t : List Row) :
    tradedValuesOf (r :: t)
      = if badRow r then tradedValuesOf t
        else safeNumber r.TOTTRDVAL :: tradedValuesOf t := by
  unfold tradedValuesOf
  by_cases hb : badRow r
  · rw [passRows_cons, if_pos hb, if_pos hb]
  · rw [passRows_cons, if_neg hb, if_neg hb, List.map_cons]

theorem mfvsOf_cons (r : Row) (t : List Row) :
    mfvsOf (r :: t)
      = if badRow r then mfvsOf t
        else (mfmOf (safeNumber r.HIGH) (safeNumber r.LOW) (safeNumber r.CLOSE)
          * safeNumber r.TOTTRDQTY) :: mfvsOf t := by
  unfold mfvsOf
  by_cases hb : badRow r
  · rw [passRows_cons, if_pos hb, if_pos hb]
  · rw [passRows_cons, if_neg hb, if_neg hb, List.map_cons]

theorem foldl_stepRow_some (s : String) (rs : List Row) (a : Aggregated) :
    ∃ a', rs.foldl (stepRow s) (some a) = some a'
      ∧ a'.symbol = a.symbol
      ∧ a'.days = a.days + (passRows rs).length
      ∧ a'.sumVolume = a.sumVolume + (volumesOf rs).sum
      ∧ a'.sumTradedValue = a.sumTradedValue + (tradedValuesOf rs).sum
      ∧ a'.sumMFVolume = a.sumMFVolume + (mfvsOf rs).sum
      ∧ a'.firstClose = firstOr a.firstClose (closesOf rs).head?
      ∧ a'.lastClose = firstOr (closesOf rs).getLast? a.lastClose := by
  induction rs generalizing a with
  | nil =>
    refine ⟨a, rfl, rfl, by simp [passRows], by simp [volumesOf, passRows],
      by simp [tradedValuesOf, passRows], by simp [mfvsOf, passRows], ?_, ?_⟩
    · show a.firstClose = firstOr a.firstClose (closesOf []).head?
      cases a.firstClose <;> rfl
    · show a.lastClose = firstOr (closesOf []).getLast? a.lastClose
      rfl
  | cons r t ih =>
    rw [List.foldl_cons]
    by_cases hb : badRow r
    · have hstep : stepRow s (some a) r = some a := by simp [stepRow, hb]
      rw [hstep]
      obtain ⟨a', h1, h2, h3, h4, h5, h6, h7, h8⟩ := ih a
      rw [passRows_cons, if_pos hb, volumesOf_cons, if_pos hb,
        tradedValuesOf_cons, if_pos hb, mfvsOf_cons, if_pos hb,
        closesOf_cons, if_pos hb]
      exact ⟨a', h1, h2, h3, h4, h5, h6, h7, h8⟩
    · have hstep : stepRow s (some a) r = some (updateAgg a r) := by
        simp [stepRow, hb]
      rw [hstep]
      obtain ⟨a', h1, h2, h3, h4, h5, h6, h7, h8⟩ := ih (updateAgg a r)
      rw [passRows_cons, if_neg hb, volumesOf_cons, if_neg hb,
        tradedValuesOf_cons, if_neg hb, mfvsOf_cons, if_neg hb,
        closesOf_cons, if_neg hb]
      refine ⟨a', h1, ?_, ?_, ?_, ?_, ?_, ?_, ?_⟩
      · rw [h2]; rfl
      · rw [h3]
        show a.days + 1 + (passRows t).length
          = a.days + (r :: passRows t).length
        rw [List.length_cons]
        omega
      · rw [h4, List.sum_cons]
        show a.sumVolume + safeNumber r.TOTTRDQTY + (volumesOf t).sum
          = a.sumVolume + (safeNumber r.TOTTRDQTY + (volumesOf t).sum)
        ring
      · rw [h5, List.sum_cons]
        show a.sumTradedValue + safeNumber r.TOTTRDVAL + (tradedValuesOf t).sum
          = a.sumTradedValue + (safeNumber r.TOTTRDVAL + (tradedValuesOf t).sum)
        ring
      · rw [h6, List.sum_cons]
        show a.sumMFVolume
              + mfmOf (safeNumber r.HIGH) (safeNumber r.LOW) (safeNumber r.CLOSE)
                * safeNumber r.TOTTRDQTY + (mfvsOf t).sum
          = a.sumMFVolume
            + (mfmOf (safeNumber r.HIGH) (safeNumber r.LOW) (safeNumber r.CLOSE)
                * safeNumber r.TOTTRDQTY + (mfvsOf t).sum)
        ring
      · rw [h7]
        have hupd : (updateAgg a r).firstClose
            = if a.firstClose = none then some (safeNumber r.CLOSE)
              else a.firstClose := rfl
        rw [hupd, List.head?_cons]
        cases a.firstClose <;> rfl
      · rw [h8, getLast?_cons_eq_firstOr]
        have hupd : (updateAgg a r).lastClose = some (safeNumber r.CLOSE) := rfl
        rw [hupd, firstOr_absorb]

theorem foldl_stepRow_none (s : String) (rs : List Row) :
    (rs.foldl (stepRow s) none = none ∧ passRows rs = [])
    ∨ ∃ a', rs.foldl (stepRow s) none = some a'
        ∧ a'.symbol = s
        ∧ a'.days = (passRows rs).length
        ∧ a'.sumVolume = (volumesOf rs).sum
        ∧ a'.sumTradedValue = (tradedValuesOf rs).sum
        ∧ a'.sumMFVolume = (mfvsOf rs).sum
        ∧ a'.firstClose = (closesOf rs).head?
        ∧ a'.lastClose = (closesOf rs).getLast? := by
  induction rs with
  | nil => exact Or.inl ⟨rfl, rfl⟩
  | cons r t ih =>
    rw [List.foldl_cons]
    by_cases hb : badRow r
    · have hstep : stepRow s none r = none := by simp [stepRow, hb]
      rw [hstep, passRows_cons, if_pos hb, volumesOf_cons, if_pos hb,
        tradedValuesOf_cons, if_pos hb, mfvsOf_cons, if_pos hb,
        closesOf_cons, if_pos hb]
      exact ih
    · have hstep : stepRow s none r = some (updateAgg (defaultAgg s) r) := by
        simp [stepRow, hb]
      rw [hstep, passRows_cons, if_neg hb, volumesOf_cons, if_neg hb,
        tradedValuesOf_cons, if_neg hb, mfvsOf_cons, if_neg hb,
        closesOf_cons, if_neg hb]
      obtain ⟨a', h1, h2, h3, h4, h5, h6, h7, h8⟩ :=
        foldl_stepRow_some s t (updateAgg (defaultAgg s) r)
      refine Or.inr ⟨a', h1, ?_, ?_, ?_, ?_, ?_, ?_, ?_⟩
      · rw [h2]; rfl
      · rw [h3, List.length_cons]
        show 0 + 1 + (passRows t).length = (passRows t).length + 1
        omega
      · rw [h4, List.sum_cons]
        show (0 : ℚ) + safeNumber r.TOTTRDQTY + (volumesOf t).sum
          = safeNumber r.TOTTRDQTY + (volumesOf t).sum
        ring
      · rw [h5, List.sum_cons]
        show (0 : ℚ) + safeNumber r.TOTTRDVAL + (tradedValuesOf t).sum
          = safeNumber r.TOTTRDVAL + (tradedValuesOf t).sum
        ring
      · rw [h6, List.sum_cons]
        show (0 : ℚ)
              + mfmOf (safeNumber r.HIGH) (safeNumber r.LOW) (safeNumber r.CLOSE)
                * safeNumber r.TOTTRDQTY + (mfvsOf t).sum
          = mfmOf (safeNumber r.HIGH) (safeNumber r.LOW) (safeNumber r.CLOSE)
              * safeNumber r.TOTTRDQTY + (mfvsOf t).sum
        ring
      · rw [h7]
        have hupd : (updateAgg (defaultAgg s) r).firstClose
            = some (safeNumber r.CLOSE) := rfl
        rw [hupd, firstOr_some_left, List.head?_cons]
      · rw [h8, getLast?_cons_eq_firstOr]
        have hupd : (updateAgg (defaultAgg s) r).lastClose
            = some (safeNumber r.CLOSE) := rfl
        rw [hupd]

theorem aggregate_spec (dailyMaps : List DayMap) (s : String) (a : Aggregated)
    (h : mapGet (aggregate dailyMaps) s = some a) :
    a.symbol = s
    ∧ a.days = (passRows (symRows s dailyMaps.reverse)).length
    ∧ a.sumVolume = (volumesOf (symRows s dailyMaps.reverse)).sum
    ∧ a.sumTradedValue = (tradedValuesOf (symRows s dailyMaps.reverse)).sum
    ∧ a.sumMFVolume = (mfvsOf (symRows s dailyMaps.reverse)).sum
    ∧ a.firstClose = (chronCloses s dailyMaps).head?
    ∧ a.lastClose = (chronCloses s dailyMaps).getLast? := by
  rw [mapGet_aggregate] at h
  rcases foldl_stepRow_none s (symRows s dailyMaps.reverse) with
    ⟨h1, _⟩ | ⟨a', h1, h2, h3, h4, h5, h6, h7, h8⟩
  · rw [h1] at h; exact absurd h (by simp)
  · rw [h1] at h
    obtain rfl : a' = a := by injection h
    exact ⟨h2, h3, h4, h5, h6, h7, h8⟩

/-! ## Claim theorems -/

/-- Claim C2: for every row that passes the volume/high/low positivity
check, the Money Flow Multiplier is exactly 0 when the range
high − low is 0, and otherwise equals
((close − low) − (high − close)) / range; the division is always
guarded by the range-zero test, so the multiplier is total. -/
theorem claim2_mfm_guarded (r : Row)
    (hv : 0 < safeNumber r.TOTTRDQTY) (hh : 0 < safeNumber r.HIGH)
    (hl : 0 < safeNumber r.LOW) :
    (safeNumber r.HIGH - safeNumber r.LOW = 0 →
      mfmOf (safeNumber r.HIGH) (safeNumber r.LOW) (safeNumber r.CLOSE) = 0)
    ∧ (safeNumber r.HIGH - safeNumber r.LOW ≠ 0 →
      mfmOf (safeNumber r.HIGH) (safeNumber r.LOW) (safeNumber r.CLOSE)
        = ((safeNumber r.CLOSE - safeNumber r.LOW)
            - (safeNumber r.HIGH - safeNumber r.CLOSE))
          / (safeNumber r.HIGH - safeNumber r.LOW)) := by
  constructor
  · intro h0
    unfold mfmOf
    rw [if_pos h0]
  · intro hne
    unfold mfmOf
    rw [if_neg hne]

/-- Witness for C2 at the flat row (high = low = 5, all gates positive):
the multiplier of the flat session is exactly 0. -/
theorem claim2_witness :
    (0 < safeNumber rowFlat.TOTTRDQTY ∧ 0 < safeNumber rowFlat.HIGH
      ∧ 0 < safeNumber rowFlat.LOW
      ∧ safeNumber rowFlat.HIGH - safeNumber rowFlat.LOW = 0)
    ∧ mfmOf (safeNumber rowFlat.HIGH) (safeNumber rowFlat.LOW)
        (safeNumber rowFlat.CLOSE) = 0 := by
  refine ⟨⟨by norm_num [safeNumber, rowFlat], by norm_num [safeNumber, rowFlat],
    by norm_num [safeNumber, rowFlat], by norm_num [safeNumber, rowFlat]⟩, ?_⟩
  exact (claim2_mfm_guarded rowFlat (by norm_num [safeNumber, rowFlat])
    (by norm_num [safeNumber, rowFlat]) (by norm_num [safeNumber, rowFlat])).1
    (by norm_num [safeNumber, rowFlat])

/-- Claim C10: a missing or non-parsing numeric cell is coerced to 0 by
safeNumber, and only volume, high and low are gated before folding: a
row whose close or traded value is zero or negative still contributes
(its symbol's day count is incremented) whenever volume, high and low
are all positive. -/
theorem claim10_coercion_and_gate :
    (safeNumber .missing = 0 ∧ safeNumber .nonfinite = 0)
    ∧ ∀ (agg : AggMap) (s : String) (r : Row),
        0 < safeNumber r.TOTTRDQTY → 0 < safeNumber r.HIGH →
        0 < safeNumber r.LOW →
        ∃ a, mapGet (foldRow agg s r) s = some a
          ∧ a.days = ((mapGet agg s).getD (defaultAgg s)).days + 1 := by
  refine ⟨⟨rfl, rfl⟩, ?_⟩
  intro agg s r hv hh hl
  have hb : badRow r = false := by
    unfold badRow
    simp only [Bool.decide_or, Bool.or_eq_false_iff, decide_eq_false_iff_not,
      not_le]
    exact ⟨hv, hh, hl⟩
  refine ⟨updateAgg ((mapGet agg s).getD (defaultAgg s)) r, ?_, rfl⟩
  unfold foldRow
  rw [hb, if_neg (by simp), mapGet_mapSet, if_pos rfl]

/-- Witness for C10: a row with close 0 and traded value −1 but positive
volume/high/low still bumps the day count from 0 to 1. -/
theorem claim10_witness :
    (0 < safeNumber rowNegValue.TOTTRDQTY ∧ 0 < safeNumber rowNegValue.HIGH
      ∧ 0 < safeNumber rowNegValue.LOW
      ∧ safeNumber rowNegValue.CLOSE = 0
      ∧ safeNumber rowNegValue.TOTTRDVAL < 0)
    ∧ (mapGet (foldRow [] "A" rowNegValue) "A").map (fun a => a.days)
        = some 1 := by
  refine ⟨⟨by norm_num [safeNumber, rowNegValue],
    by norm_num [safeNumber, rowNegValue],
    by norm_num [safeNumber, rowNegValue],
    by norm_num [safeNumber, rowNegValue],
    by norm_num [safeNumber, rowNegValue]⟩, ?_⟩
  obtain ⟨a, h1, h2⟩ := claim10_coercion_and_gate.2 [] "A" rowNegValue
    (by norm_num [safeNumber, rowNegValue])
    (by norm_num [safeNumber, rowNegValue])
    (by norm_num [safeNumber, rowNegValue])
  rw [h1]
  show some a.days = some 1
  rw [h2]
  rfl

/-- Claim C8: the aggregation folds sessions oldest-first (the most-
recent-first locator list is reversed), and for every symbol the
accumulator's firstClose is the close of its chronologically first
gate-passing row while lastClose is the close of its chronologically
last one. -/
theorem claim8_first_last_close (dailyMaps : List DayMap) (s : String)
    (a : Aggregated) (h : mapGet (aggregate dailyMaps) s = some a) :
    a.firstClose = (chronCloses s dailyMaps).head?
    ∧ a.lastClose = (chronCloses s dailyMaps).getLast? := by
  obtain ⟨-, -, -, -, -, h7, h8⟩ := aggregate_spec dailyMaps s a h
  exact ⟨h7, h8⟩

/-- Witness for C8: two sessions, newest first with close 8, oldest
with close 7; the accumulator records firstClose 7 and lastClose 8. -/
theorem claim8_witness :
    mapGet (aggregate [[("A", rowGood2)], [("A", rowGood)]]) "A"
      = some ⟨"A", 5, 7, 1/5, some 7, some 8, 2⟩
    ∧ (⟨"A", 5, 7, 1/5, some 7, some 8, 2⟩ : Aggregated).firstClose
        = (chronCloses "A" [[("A", rowGood2)], [("A", rowGood)]]).head?
    ∧ (⟨"A", 5, 7, 1/5, some 7, some 8, 2⟩ : Aggregated).lastClose
        = (chronCloses "A" [[("A", rowGood2)], [("A", rowGood)]]).getLast? := by
  have h : mapGet (aggregate [[("A", rowGood2)], [("A", rowGood)]]) "A"
      = some ⟨"A", 5, 7, 1/5, some 7, some 8, 2⟩ := by
    have hagg : aggregate [[("A", rowGood2)], [("A", rowGood)]]
        = [("A", ⟨"A", 5, 7, 1/5, some 7, some 8, 2⟩)] := by
      norm_num [aggregate, foldDays, foldDay, foldRow, badRow, mapGet, mapSet,
        updateAgg, safeNumber, mfmOf, defaultAgg, rowGood, rowGood2]
      simp
    rw [hagg, mapGet_cons, if_pos rfl]
  exact ⟨h, claim8_first_last_close _ "A" _ h⟩

theorem badRow_false_iff (r : Row) :
    badRow r = false
      ↔ 0 < safeNumber r.TOTTRDQTY ∧ 0 < safeNumber r.HIGH
        ∧ 0 < safeNumber r.LOW := by
  simp only [badRow, decide_eq_false_iff_not, not_or, not_le]

theorem mem_passRows {r : Row} {rs : List Row} (h : r ∈ passRows rs) :
    r ∈ rs ∧ badRow r = false := by
  unfold passRows at h
  rw [List.mem_filter] at h
  exact ⟨h.1, by simpa using h.2⟩

theorem mem_symRows {r : Row} {s : String} {l : List DayMap}
    (h : r ∈ symRows s l) : ∃ m ∈ l, ∃ p ∈ m, p.2 = r := by
  unfold symRows at h
  rw [List.mem_flatten] at h
  obtain ⟨rows, hrows, hr⟩ := h
  rw [List.mem_map] at hrows
  obtain ⟨m, hm, rfl⟩ := hrows
  unfold rowsFor at hr
  rw [List.mem_map] at hr
  obtain ⟨p, hp, rfl⟩ := hr
  exact ⟨m, hm, p, List.mem_of_mem_filter hp, rfl⟩

theorem mfmOf_bounds {h l c : ℚ} (h1 : l ≤ c) (h2 : c ≤ h) :
    -1 ≤ mfmOf h l c ∧ mfmOf h l c ≤ 1 := by
  unfold mfmOf
  split_ifs with hr
  · norm_num
  · have hlt : 0 < h - l := by
      rcases lt_or_eq_of_le (by linarith : (0 : ℚ) ≤ h - l) with hgt | heq
      · exact hgt
      · exact absurd heq.symm hr
    constructor
    · rw [le_div_iff₀ hlt]
      linarith
    · rw [div_le_iff₀ hlt]
      linarith

theorem mfvs_sum_bounds (rs : List Row)
    (hrows : ∀ r ∈ rs, safeNumber r.LOW ≤ safeNumber r.CLOSE
      ∧ safeNumber r.CLOSE ≤ safeNumber r.HIGH) :
    -(volumesOf rs).sum ≤ (mfvsOf rs).sum
    ∧ (mfvsOf rs).sum ≤ (volumesOf rs).sum := by
  induction rs with
  | nil => simp [volumesOf, mfvsOf, passRows]
  | cons r t ih =>
    have iht := ih (fun x hx => hrows x (List.mem_cons_of_mem r hx))
    rw [volumesOf_cons, mfvsOf_cons]
    by_cases hb : badRow r
    · rw [if_pos hb, if_pos hb]
      exact iht
    · rw [if_neg hb, if_neg hb, List.sum_cons, List.sum_cons]
      have hw := hrows r (List.mem_cons_self r t)
      have hm := mfmOf_bounds hw.1 hw.2
      have hv : 0 < safeNumber r.TOTTRDQTY :=
        ((badRow_false_iff r).mp (Bool.not_eq_true _ ▸ eq_false_of_ne_true hb)).1
      constructor
      · have hlow : -safeNumber r.TOTTRDQTY
            ≤ mfmOf (safeNumber r.HIGH) (safeNumber r.LOW) (safeNumber r.CLOSE)
              * safeNumber r.TOTTRDQTY := by
          nlinarith [hm.1, hv]
        linarith [iht.1]
      · have hhigh : mfmOf (safeNumber r.HIGH) (safeNumber r.LOW)
              (safeNumber r.CLOSE) * safeNumber r.TOTTRDQTY
            ≤ safeNumber r.TOTTRDQTY := by
          nlinarith [hm.2, hv]
        linarith [iht.2]

/-- Claim C1 (amended): for every accumulator with positive sumVolume
produced by folding sessions whose rows all satisfy
low ≤ close ≤ high, the computed cmf = sumMFVolume / sumVolume lies in
[-1, 1].  (Unrestricted rows can push cmf outside the interval, see the
counterexample: the gate checks only positivity of volume/high/low.) -/
theorem claim1_cmf_bounded (dailyMaps : List DayMap)
    (hrows : ∀ m ∈ dailyMaps, ∀ p ∈ m,
      safeNumber (p.2 : Row).LOW ≤ safeNumber (p.2 : Row).CLOSE
      ∧ safeNumber (p.2 : Row).CLOSE ≤ safeNumber (p.2 : Row).HIGH)
    (s : String) (a : Aggregated)
    (h : mapGet (aggregate dailyMaps) s = some a)
    (hpos : 0 < a.sumVolume) :
    -1 ≤ cmfOf a ∧ cmfOf a ≤ 1 := by
  obtain ⟨-, -, h3, -, h5, -, -⟩ := aggregate_spec dailyMaps s a h
  have hsub : ∀ r ∈ symRows s dailyMaps.reverse,
      safeNumber r.LOW ≤ safeNumber r.CLOSE
      ∧ safeNumber r.CLOSE ≤ safeNumber r.HIGH := by
    intro r hr
    obtain ⟨m, hm, p, hp, rfl⟩ := mem_symRows hr
    exact hrows m (List.mem_reverse.mp hm) p hp
  have hb := mfvs_sum_bounds _ hsub
  unfold cmfOf
  rw [if_neg (ne_of_gt hpos)]
  rw [h3] at hpos ⊢
  rw [h5]
  constructor
  · rw [le_div_iff₀ hpos]
    linarith [hb.1]
  · rw [div_le_iff₀ hpos]
    linarith [hb.2]

/-- Witness for C1 at a single well-formed session (low 5 ≤ close 7 ≤
high 10): the resulting cmf −1/5 lies in [−1, 1]. -/
theorem claim1_witness :
    mapGet (aggregate [[("A", rowGood)]]) "A"
      = some ⟨"A", 2, 3, -2/5, some 7, some 7, 1⟩
    ∧ (0 : ℚ) < (⟨"A", 2, 3, -2/5, some 7, some 7, 1⟩ : Aggregated).sumVolume
    ∧ (-1 ≤ cmfOf ⟨"A", 2, 3, -2/5, some 7, some 7, 1⟩
        ∧ cmfOf ⟨"A", 2, 3, -2/5, some 7, some 7, 1⟩ ≤ 1) := by
  have h : mapGet (aggregate [[("A", rowGood)]]) "A"
      = some ⟨"A", 2, 3, -2/5, some 7, some 7, 1⟩ := by
    have hagg : aggregate [[("A", rowGood)]]
        = [("A", ⟨"A", 2, 3, -2/5, some 7, some 7, 1⟩)] := by
      norm_num [aggregate, foldDays, foldDay, foldRow, badRow, mapGet, mapSet,
        updateAgg, safeNumber, mfmOf, defaultAgg, rowGood]
    rw [hagg, mapGet_cons, if_pos rfl]
  refine ⟨h, by norm_num, ?_⟩
  exact claim1_cmf_bounded [[("A", rowGood)]] (by decide) "A" _ h (by norm_num)

/-- Counterexample to C1 as stated: a single gate-passing row whose
close 20 lies above its high 10 yields an accumulator with
sumVolume 1 > 0 and cmf 5, outside [−1, 1]. -/
theorem claim1_counterexample :
    mapGet (aggregate [[("A", rowWildClose)]]) "A"
      = some ⟨"A", 1, 0, 5, some 20, some 20, 1⟩
    ∧ (0 : ℚ) < (⟨"A", 1, 0, 5, some 20, some 20, 1⟩ : Aggregated).sumVolume
    ∧ 1 < cmfOf ⟨"A", 1, 0, 5, some 20, some 20, 1⟩ := by
  refine ⟨?_, by norm_num, by norm_num [cmfOf]⟩
  have hagg : aggregate [[("A", rowWildClose)]]
      = [("A", ⟨"A", 1, 0, 5, some 20, some 20, 1⟩)] := by
    norm_num [aggregate, foldDays, foldDay, foldRow, badRow, mapGet, mapSet,
      updateAgg, safeNumber, mfmOf, defaultAgg, rowWildClose]
  rw [hagg, mapGet_cons, if_pos rfl]

/-! ## Lemmas: key uniqueness and session-count bounds -/

theorem mem_keys_mapSet {α : Type} (m : List (String × α)) (k x : String)
    (v : α) (h : x ∈ (mapSet m k v).map (fun p => p.1)) :
    x ∈ m.map (fun p => p.1) ∨ x = k := by
  induction m with
  | nil =>
    rw [mapSet, List.map_cons] at h
    rcases List.mem_cons.mp h with heq | hin
    · exact Or.inr heq
    · exact absurd hin (by simp)
  | cons p t ih =>
    rw [mapSet] at h
    cases hpb : (p.1 == k) with
    | true =>
      rw [if_pos hpb, List.map_cons] at h
      rcases List.mem_cons.mp h with heq | hin
      · exact Or.inr heq
      · exact Or.inl (List.mem_cons_of_mem _ hin)
    | false =>
      rw [if_neg (by rw [hpb]; exact Bool.false_ne_true), List.map_cons] at h
      rcases List.mem_cons.mp h with heq | hin
      · exact Or.inl (heq ▸ List.mem_cons_self _ _)
      · rcases ih hin with h1 | h2
        · exact Or.inl (List.mem_cons_of_mem _ h1)
        · exact Or.inr h2

theorem nodup_keys_mapSet {α : Type} (m : List (String × α)) (k : String)
    (v : α) (h : (m.map (fun p => p.1)).Nodup) :
    ((mapSet m k v).map (fun p => p.1)).Nodup := by
  induction m with
  | nil => simp [mapSet]
  | cons p t ih =>
    rw [List.map_cons, List.nodup_cons] at h
    rw [mapSet]
    by_cases hp : p.1 = k
    · have hpb : (p.1 == k) = true := by simpa using hp
      rw [if_pos hpb, List.map_cons, List.nodup_cons]
      exact ⟨hp ▸ h.1, h.2⟩
    · have hpb : (p.1 == k) = false := by simpa using hp
      rw [if_neg (by rw [hpb]; exact Bool.false_ne_true), List.map_cons,
        List.nodup_cons]
      refine ⟨?_, ih h.2⟩
      intro hmem
      rcases mem_keys_mapSet t k p.1 v hmem with hin | heq
      · exact h.1 hin
      · exact hp heq

theorem buildDayMap_aux_nodup (records : List Row) :
    ∀ m : DayMap, (m.map (fun p => p.1)).Nodup →
      ((records.foldl
          (fun m r => if r.SERIES == "EQ" then mapSet m r.SYMBOL r else m)
          m).map (fun p => p.1)).Nodup := by
  induction records with
  | nil => intro m h; exact h
  | cons r t ih =>
    intro m h
    rw [List.foldl_cons]
    by_cases hr : r.SERIES = "EQ"
    · have hrb : (r.SERIES == "EQ") = true := by simpa using hr
      rw [if_pos hrb]
      exact ih _ (nodup_keys_mapSet m _ _ h)
    · have hrb : (r.SERIES == "EQ") = false := by simpa using hr
      rw [if_neg (by rw [hrb]; exact Bool.false_ne_true)]
      exact ih m h

theorem buildDayMap_keys_nodup (records : List Row) :
    ((buildDayMap records).map (fun p => p.1)).Nodup :=
  buildDayMap_aux_nodup records [] (by simp)

theorem rowsFor_length_le_one (s : String) (m : DayMap)
    (h : (m.map (fun p => p.1)).Nodup) : (rowsFor s m).length ≤ 1 := by
  induction m with
  | nil => simp [rowsFor]
  | cons p t ih =>
    rw [List.map_cons, List.nodup_cons] at h
    rw [rowsFor_cons]
    by_cases hp : p.1 = s
    · rw [if_pos hp, List.length_cons]
      have hnil : rowsFor s t = [] := by
        unfold rowsFor
        rw [List.map_eq_nil_iff, List.filter_eq_nil_iff]
        intro q hq hqs
        have hqs' : q.1 = s := by simpa using hqs
        exact h.1 ((hqs'.trans hp.symm) ▸ List.mem_map_of_mem _ hq)
      rw [hnil]
      simp
    · rw [if_neg hp]
      exact ih h.2

theorem symRows_length_le (s : String) (l : List DayMap)
    (h : ∀ m ∈ l, (m.map (fun p => p.1)).Nodup) :
    (symRows s l).length ≤ l.length := by
  induction l with
  | nil => simp [symRows]
  | cons m t ih =>
    rw [symRows_cons, List.length_append, List.length_cons]
    have h1 := rowsFor_length_le_one s m (h m (List.mem_cons_self m t))
    have h2 := ih (fun x hx => h x (List.mem_cons_of_mem m hx))
    omega

theorem volumesOf_sum_nonneg (rs : List Row) : 0 ≤ (volumesOf rs).sum := by
  apply List.sum_nonneg
  intro x hx
  unfold volumesOf at hx
  rw [List.mem_map] at hx
  obtain ⟨r, hr, rfl⟩ := hx
  exact le_of_lt ((badRow_false_iff r).mp (mem_passRows hr).2).1

theorem tradedValuesOf_sum_nonneg (rs : List Row)
    (h : ∀ r ∈ rs, 0 ≤ safeNumber r.TOTTRDVAL) :
    0 ≤ (tradedValuesOf rs).sum := by
  apply List.sum_nonneg
  intro x hx
  unfold tradedValuesOf at hx
  rw [List.mem_map] at hx
  obtain ⟨r, hr, rfl⟩ := hx
  exact h r (mem_passRows hr).1

/-- Claim C9 (amended): folding a chronological prefix and then more
sessions, a symbol's day count never exceeds the number of sessions
folded (given each session's map has unique keys, as a JavaScript Map
does), and sumVolume is monotonically non-decreasing across folds;
sumTradedValue is monotonically non-decreasing provided the added rows
carry non-negative traded values (the gate does not check traded value,
so a negative TOTTRDVAL decreases it — see the counterexample). -/
theorem claim9_invariants (chron₁ chron₂ : List DayMap) (s : String)
    (a₁ : Aggregated) (h₁ : mapGet (foldDays [] chron₁) s = some a₁) :
    ((∀ m ∈ chron₁, (m.map (fun p => p.1)).Nodup) → a₁.days ≤ chron₁.length)
    ∧ ∃ a₂, mapGet (foldDays [] (chron₁ ++ chron₂)) s = some a₂
        ∧ a₁.sumVolume ≤ a₂.sumVolume
        ∧ ((∀ m ∈ chron₂, ∀ p ∈ m, 0 ≤ safeNumber (p.2 : Row).TOTTRDVAL) →
            a₁.sumTradedValue ≤ a₂.sumTradedValue) := by
  have hproj : mapGet (foldDays [] chron₁) s
      = (symRows s chron₁).foldl (stepRow s) none := by
    rw [mapGet_foldDays]
    rfl
  constructor
  · intro hnd
    rw [hproj] at h₁
    rcases foldl_stepRow_none s (symRows s chron₁) with
      ⟨hn, _⟩ | ⟨a', ha', _, hd, _⟩
    · rw [hn] at h₁
      exact absurd h₁ (by simp)
    · rw [ha'] at h₁
      obtain rfl : a' = a₁ := by injection h₁
      rw [hd]
      calc (passRows (symRows s chron₁)).length
          ≤ (symRows s chron₁).length := List.length_filter_le _ _
        _ ≤ chron₁.length := symRows_length_le s chron₁ hnd
  · have hsplit : foldDays [] (chron₁ ++ chron₂)
        = foldDays (foldDays [] chron₁) chron₂ := by
      unfold foldDays
      rw [List.foldl_append]
    obtain ⟨a₂, ha₂, _, _, h4, h5, _, _, _⟩ :=
      foldl_stepRow_some s (symRows s chron₂) a₁
    refine ⟨a₂, ?_, ?_, ?_⟩
    · rw [hsplit, mapGet_foldDays, h₁]
      exact ha₂
    · rw [h4]
      have := volumesOf_sum_nonneg (symRows s chron₂)
      linarith
    · intro htv
      rw [h5]
      have hnn : 0 ≤ (tradedValuesOf (symRows s chron₂)).sum := by
        apply tradedValuesOf_sum_nonneg
        intro r hr
        obtain ⟨m, hm, p, hp, rfl⟩ := mem_symRows hr
        exact htv m hm p hp
      linarith

/-- Witness for C9: one session then a second; days 1 ≤ 1 session, and
both sumVolume (2 to 5) and sumTradedValue (3 to 7) grow. -/
theorem claim9_witness :
    mapGet (foldDays [] [[("A", rowGood)]]) "A"
      = some ⟨"A", 2, 3, -2/5, some 7, some 7, 1⟩
    ∧ mapGet (foldDays [] ([[("A", rowGood)]] ++ [[("A", rowGood2)]])) "A"
      = some ⟨"A", 5, 7, 1/5, some 7, some 8, 2⟩
    ∧ (⟨"A", 2, 3, -2/5, some 7, some 7, 1⟩ : Aggregated).days ≤ 1
    ∧ (⟨"A", 2, 3, -2/5, some 7, some 7, 1⟩ : Aggregated).sumVolume
        ≤ (⟨"A", 5, 7, 1/5, some 7, some 8, 2⟩ : Aggregated).sumVolume
    ∧ (⟨"A", 2, 3, -2/5, some 7, some 7, 1⟩ : Aggregated).sumTradedValue
        ≤ (⟨"A", 5, 7, 1/5, some 7, some 8, 2⟩ : Aggregated).sumTradedValue := by
  have h1 : mapGet (foldDays [] [[("A", rowGood)]]) "A"
      = some ⟨"A", 2, 3, -2/5, some 7, some 7, 1⟩ := by
    have hagg : foldDays [] [[("A", rowGood)]]
        = [("A", ⟨"A", 2, 3, -2/5, some 7, some 7, 1⟩)] := by
      norm_num [foldDays, foldDay, foldRow, badRow, mapGet, mapSet,
        updateAgg, safeNumber, mfmOf, defaultAgg, rowGood]
    rw [hagg, mapGet_cons, if_pos rfl]
  have h2 : mapGet (foldDays [] ([[("A", rowGood)]] ++ [[("A", rowGood2)]])) "A"
      = some ⟨"A", 5, 7, 1/5, some 7, some 8, 2⟩ := by
    have hagg : foldDays [] ([[("A", rowGood)]] ++ [[("A", rowGood2)]])
        = [("A", ⟨"A", 5, 7, 1/5, some 7, some 8, 2⟩)] := by
      norm_num [foldDays, foldDay, foldRow, badRow, mapGet, mapSet,
        updateAgg, safeNumber, mfmOf, defaultAgg, rowGood, rowGood2]
      simp
    rw [hagg, mapGet_cons, if_pos rfl]
  obtain ⟨hdays, a₂, ha₂, hvol, htv⟩ :=
    claim9_invariants [[("A", rowGood)]] [[("A", rowGood2)]] "A" _ h1
  obtain rfl : a₂ = ⟨"A", 5, 7, 1/5, some 7, some 8, 2⟩ := by
    rw [h2] at ha₂
    exact (Option.some_inj.mp ha₂).symm
  exact ⟨h1, h2, hdays (by decide),
    hvol, htv (by decide)⟩

/-- Counterexample to C9 as stated: a second session carrying traded
value −1 makes sumTradedValue fall from 3 to 2, so it is not
monotonically non-decreasing across folds. -/
theorem claim9_counterexample :
    mapGet (foldDays [] [[("A", rowGood)]]) "A"
      = some ⟨"A", 2, 3, -2/5, some 7, some 7, 1⟩
    ∧ mapGet (foldDays [] ([[("A", rowGood)]] ++ [[("A", rowNegValue)]])) "A"
      = some ⟨"A", 4, 2, -32/5, some 7, some 0, 2⟩
    ∧ (⟨"A", 4, 2, -32/5, some 7, some 0, 2⟩ : Aggregated).sumTradedValue
        < (⟨"A", 2, 3, -2/5, some 7, some 7, 1⟩ : Aggregated).sumTradedValue := by
  refine ⟨?_, ?_, by norm_num⟩
  · have hagg : foldDays [] [[("A", rowGood)]]
        = [("A", ⟨"A", 2, 3, -2/5, some 7, some 7, 1⟩)] := by
      norm_num [foldDays, foldDay, foldRow, badRow, mapGet, mapSet,
        updateAgg, safeNumber, mfmOf, defaultAgg, rowGood]
    rw [hagg, mapGet_cons, if_pos rfl]
  · have hagg : foldDays [] ([[("A", rowGood)]] ++ [[("A", rowNegValue)]])
        = [("A", ⟨"A", 4, 2, -32/5, some 7, some 0, 2⟩)] := by
      norm_num [foldDays, foldDay, foldRow, badRow, mapGet, mapSet,
        updateAgg, safeNumber, mfmOf, defaultAgg, rowGood, rowNegValue]
      simp
    rw [hagg, mapGet_cons, if_pos rfl]

/-! ## Lemmas: the pipeline tail and the locator loop -/

theorem runPipeline_ok_elim (dailyMaps : List DayMap) (log10 : ℚ → ℚ)
    (out : Output) (h : runPipeline dailyMaps log10 = .ok out) :
    dailyMaps.length ≠ 0
    ∧ out.daysAnalyzed = dailyMaps.length
    ∧ out.topStocks = (sortByScore log10 (rankerInput dailyMaps)).take 10 := by
  unfold runPipeline at h
  by_cases hz : dailyMaps.length = 0
  · rw [if_pos hz] at h
    exact absurd h (by simp)
  · rw [if_neg hz] at h
    obtain rfl : out
        = { daysAnalyzed := dailyMaps.length
            topStocks := (sortByScore log10 (rankerInput dailyMaps)).take 10 } := by
      injection h with h'
      exact h'.symm
    exact ⟨hz, rfl, rfl⟩

theorem mem_topStocks_subset (log10 : ℚ → ℚ) (l : List RankedStock)
    {x : RankedStock} (hx : x ∈ (sortByScore log10 l).take 10) : x ∈ l := by
  have h1 := List.mem_of_mem_take hx
  unfold sortByScore at h1
  exact (List.mergeSort_perm l _).mem_iff.mp h1

theorem locateLoop_congr (fetch fetch' : ℕ → FetchOutcome) (w0 : ℕ)
    (hsame : ∀ k, processDate (fetch k) = processDate (fetch' k)) :
    ∀ fuel k st, locateLoop fetch w0 fuel k st = locateLoop fetch' w0 fuel k st := by
  intro fuel
  induction fuel with
  | zero => intro k st; rfl
  | succ n ih =>
    intro k st
    simp only [locateLoop]
    by_cases hg : st.found.length < neededDays
        ∧ st.found.length + k ≤ neededDays + maxLookback
    · rw [if_pos hg, if_pos hg]
      by_cases hw : (w0 + 6 * (k + 1)) % 7 = 6 ∨ (w0 + 6 * (k + 1)) % 7 = 0
      · rw [if_pos hw, if_pos hw]
        exact ih (k + 1) st
      · rw [if_neg hw, if_neg hw, ← hsame (k + 1)]
        cases hpd : processDate (fetch (k + 1)) with
        | none => exact ih (k + 1) _
        | some records =>
          dsimp only
          by_cases hm : 0 < (buildDayMap records).length
          · rw [if_pos hm, if_pos hm]
            exact ih (k + 1) _
          · rw [if_neg hm, if_neg hm]
            exact ih (k + 1) _
    · rw [if_neg hg, if_neg hg]

theorem locateLoop_invariant (fetch : ℕ → FetchOutcome) (w0 : ℕ) :
    ∀ fuel k st,
      (∀ j ∈ st.attempts,
        ((w0 + 6 * j) % 7 ≠ 6 ∧ (w0 + 6 * j) % 7 ≠ 0)
        ∧ j ≤ neededDays + maxLookback + 1) →
      st.found.length ≤ neededDays →
      (∀ j ∈ (locateLoop fetch w0 fuel k st).attempts,
        ((w0 + 6 * j) % 7 ≠ 6 ∧ (w0 + 6 * j) % 7 ≠ 0)
        ∧ j ≤ neededDays + maxLookback + 1)
      ∧ (locateLoop fetch w0 fuel k st).found.length ≤ neededDays := by
  intro fuel
  induction fuel with
  | zero => intro k st h1 h2; exact ⟨h1, h2⟩
  | succ n ih =>
    intro k st h1 h2
    simp only [locateLoop]
    by_cases hg : st.found.length < neededDays
        ∧ st.found.length + k ≤ neededDays + maxLookback
    · rw [if_pos hg]
      by_cases hw : (w0 + 6 * (k + 1)) % 7 = 6 ∨ (w0 + 6 * (k + 1)) % 7 = 0
      · rw [if_pos hw]
        exact ih (k + 1) st h1 h2
      · rw [if_neg hw]
        have hk1 : k + 1 ≤ neededDays + maxLookback + 1 := by
          have := hg.2
          omega
        have hnew : ∀ j ∈ st.attempts ++ [k + 1],
            ((w0 + 6 * j) % 7 ≠ 6 ∧ (w0 + 6 * j) % 7 ≠ 0)
            ∧ j ≤ neededDays + maxLookback + 1 := by
          intro j hj
          rcases List.mem_append.mp hj with hjo | hjn
          · exact h1 j hjo
          · obtain rfl : j = k + 1 := by simpa using hjn
            push_neg at hw
            exact ⟨hw, hk1⟩
        cases hpd : processDate (fetch (k + 1)) with
        | none => exact ih (k + 1) _ hnew h2
        | some records =>
          dsimp only
          by_cases hm : 0 < (buildDayMap records).length
          · rw [if_pos hm]
            apply ih (k + 1)
            · exact hnew
            · rw [List.length_append]
              have := hg.1
              simp only [List.length_singleton]
              omega
          · rw [if_neg hm]
            exact ih (k + 1) _ hnew h2
    · rw [if_neg hg]
      exact ⟨h1, h2⟩

theorem locateLoop_nonempty (fetch : ℕ → FetchOutcome) (w0 : ℕ) :
    ∀ fuel k st,
      (∀ m ∈ st.found, m ≠ []) →
      ∀ m ∈ (locateLoop fetch w0 fuel k st).found, m ≠ [] := by
  intro fuel
  induction fuel with
  | zero => intro k st h; exact h
  | succ n ih =>
    intro k st h
    simp only [locateLoop]
    by_cases hg : st.found.length < neededDays
        ∧ st.found.length + k ≤ neededDays + maxLookback
    · rw [if_pos hg]
      by_cases hw : (w0 + 6 * (k + 1)) % 7 = 6 ∨ (w0 + 6 * (k + 1)) % 7 = 0
      · rw [if_pos hw]
        exact ih (k + 1) st h
      · rw [if_neg hw]
        cases hpd : processDate (fetch (k + 1)) with
        | none => exact ih (k + 1) _ h
        | some records =>
          dsimp only
          by_cases hm : 0 < (buildDayMap records).length
          · rw [if_pos hm]
            apply ih (k + 1)
            intro m hmem
            rcases List.mem_append.mp hmem with hold | hnewm
            · exact h m hold
            · obtain rfl : m = buildDayMap records := by simpa using hnewm
              exact List.length_pos.mp hm
          · rw [if_neg hm]
            exact ih (k + 1) _ h
    · rw [if_neg hg]
      exact h

theorem locate_found_nonempty (fetch : ℕ → FetchOutcome) (w0 : ℕ) :
    ∀ m ∈ (locate fetch w0).found, m ≠ [] :=
  locateLoop_nonempty fetch w0 _ 0 ⟨[], []⟩ (by simp)

/-! ## Evaluation helpers for concrete runs -/

theorem runPipeline_dayGood5_eval :
    runPipeline [dayGood, dayGood, dayGood, dayGood, dayGood] zeroLog
      = .ok outGood := by
  have hagg : aggregate [dayGood, dayGood, dayGood, dayGood, dayGood]
      = [("A", ⟨"A", 10, 15, -2, some 7, some 7, 5⟩)] := by
    norm_num [aggregate, foldDays, foldDay, foldRow, badRow, mapGet, mapSet,
      updateAgg, safeNumber, mfmOf, defaultAgg, rowGood, dayGood]
  have hrank : rankerInput [dayGood, dayGood, dayGood, dayGood, dayGood]
      = [stockGood] := by
    unfold rankerInput
    rw [hagg]
    norm_num [coverageFloor, toResult, cmfOf, stockGood]
  have hsort : sortByScore zeroLog [stockGood] = [stockGood] := by
    simp [sortByScore, List.mergeSort]
  unfold runPipeline
  rw [hrank, hsort]
  norm_num [outGood]

theorem runScan_alwaysGood_eval :
    runScan alwaysGood 5 zeroLog = .ok outGood := by
  have hloc : locate alwaysGood 5
      = ⟨[dayGood, dayGood, dayGood, dayGood, dayGood], [1, 2, 3, 4, 7]⟩ := by
    decide
  unfold runScan
  rw [hloc]
  exact runPipeline_dayGood5_eval

theorem runScan_zeroVol_eval :
    runScan alwaysZeroVolume 5 zeroLog = .ok ⟨5, []⟩ := by
  have hloc : locate alwaysZeroVolume 5
      = ⟨[dayZeroVol, dayZeroVol, dayZeroVol, dayZeroVol, dayZeroVol],
          [1, 2, 3, 4, 7]⟩ := by
    decide
  have hagg : aggregate [dayZeroVol, dayZeroVol, dayZeroVol, dayZeroVol,
      dayZeroVol] = [] := by
    norm_num [aggregate, foldDays, foldDay, foldRow, badRow, mapGet, mapSet,
      updateAgg, safeNumber, mfmOf, defaultAgg, rowZeroVolume, dayZeroVol]
  have hrank : rankerInput [dayZeroVol, dayZeroVol, dayZeroVol, dayZeroVol,
      dayZeroVol] = [] := by
    unfold rankerInput
    rw [hagg]
    rfl
  unfold runScan
  rw [hloc]
  show runPipeline [dayZeroVol, dayZeroVol, dayZeroVol, dayZeroVol, dayZeroVol]
      zeroLog = .ok ⟨5, []⟩
  unfold runPipeline
  rw [hrank]
  norm_num [sortByScore, List.mergeSort]

/-! ## Remaining claim theorems -/

/-- Claim C3: a symbol appears in topStocks only if its day count is at
least max(3, min(5, sessionsFetched)), where sessionsFetched is the
number of sessions the locator actually retrieved (which is also the
returned daysAnalyzed). -/
theorem claim3_coverage_floor (fetch : ℕ → FetchOutcome) (w0 : ℕ)
    (log10 : ℚ → ℚ) (out : Output) (h : runScan fetch w0 log10 = .ok out) :
    out.daysAnalyzed = (locate fetch w0).found.length
    ∧ ∀ x ∈ out.topStocks,
        coverageFloor (locate fetch w0).found.length ≤ x.daysCount := by
  unfold runScan at h
  obtain ⟨hz, hd, ht⟩ := runPipeline_ok_elim _ _ _ h
  refine ⟨hd, ?_⟩
  intro x hx
  rw [ht] at hx
  have hx' : x ∈ rankerInput (locate fetch w0).found :=
    mem_topStocks_subset _ _ hx
  unfold rankerInput at hx'
  rw [List.mem_map] at hx'
  obtain ⟨a, ha, rfl⟩ := hx'
  rw [List.mem_filter] at ha
  have hle : coverageFloor (locate fetch w0).found.length ≤ a.days := by
    simpa using ha.2
  exact hle

/-- Witness for C3: a five-session run whose single symbol traded on
all five sessions; it appears in topStocks with daysCount 5 ≥ 5. -/
theorem claim3_witness :
    runScan alwaysGood 5 zeroLog = .ok outGood
    ∧ outGood.daysAnalyzed = (locate alwaysGood 5).found.length
    ∧ stockGood ∈ outGood.topStocks
    ∧ coverageFloor (locate alwaysGood 5).found.length
        ≤ stockGood.daysCount := by
  have h := runScan_alwaysGood_eval
  obtain ⟨hd, hall⟩ := claim3_coverage_floor alwaysGood 5 zeroLog outGood h
  exact ⟨h, hd, by simp [outGood], hall stockGood (by simp [outGood])⟩

/-- Claim C7: the ranker returns exactly the first 10 of the qualifying
rows sorted in descending score order (score = cmf scaled by the
liquidity multiplier), so topStocks is sorted by descending score, has
length min(10, #qualifying), and every entry is a qualifying row with
all its fields preserved. -/
theorem claim7_ranker (dailyMaps : List DayMap) (log10 : ℚ → ℚ)
    (out : Output) (h : runPipeline dailyMaps log10 = .ok out) :
    out.topStocks = (sortByScore log10 (rankerInput dailyMaps)).take 10
    ∧ List.Sorted (fun x y => score log10 y ≤ score log10 x) out.topStocks
    ∧ out.topStocks.length = min 10 (rankerInput dailyMaps).length
    ∧ ∀ x ∈ out.topStocks, x ∈ rankerInput dailyMaps := by
  obtain ⟨hz, hd, ht⟩ := runPipeline_ok_elim _ _ _ h
  refine ⟨ht, ?_, ?_, ?_⟩
  · rw [ht]
    have hsorted : List.Pairwise
        (fun x y => (decide (score log10 y ≤ score log10 x)) = true)
        (sortByScore log10 (rankerInput dailyMaps)) := by
      unfold sortByScore
      apply List.sorted_mergeSort
      · intro a b c hab hbc
        simp only [decide_eq_true_eq] at hab hbc ⊢
        exact le_trans hbc hab
      · intro a b
        rcases le_total (score log10 b) (score log10 a) with hle | hle <;>
          simp [hle]
    have hsub := List.Pairwise.sublist
      (List.take_sublist 10 (sortByScore log10 (rankerInput dailyMaps)))
      hsorted
    exact hsub.imp (fun hd => by simpa using hd)
  · rw [ht, List.length_take]
    unfold sortByScore
    rw [List.length_mergeSort]
  · intro x hx
    rw [ht] at hx
    exact mem_topStocks_subset log10 _ hx

/-- Witness for C7 at a concrete five-session run with one qualifying
symbol: topStocks is the sorted one-element list and preserves it. -/
theorem claim7_witness :
    runPipeline [dayGood, dayGood, dayGood, dayGood, dayGood] zeroLog
      = .ok outGood
    ∧ outGood.topStocks
        = (sortByScore zeroLog
            (rankerInput [dayGood, dayGood, dayGood, dayGood, dayGood])).take 10
    ∧ List.Sorted (fun x y => score zeroLog y ≤ score zeroLog x)
        outGood.topStocks
    ∧ outGood.topStocks.length
        = min 10 (rankerInput [dayGood, dayGood, dayGood, dayGood, dayGood]).length
    ∧ stockGood ∈ rankerInput [dayGood, dayGood, dayGood, dayGood, dayGood] := by
  have h := runPipeline_dayGood5_eval
  obtain ⟨h1, h2, h3, h4⟩ := claim7_ranker _ zeroLog outGood h
  exact ⟨h, h1, h2, h3, h4 stockGood (by simp [outGood])⟩

/-- Claim C4: only the kind-insensitive skip result of each date's
fetch matters (every per-date failure mode is swallowed as a skip), and
the run surfaces the no-sessions error exactly when zero sessions were
retrieved within the lookback ceiling; any error is that one message. -/
theorem claim4_failure_policy (fetch fetch' : ℕ → FetchOutcome) (w0 : ℕ)
    (log10 : ℚ → ℚ)
    (hsame : ∀ k, processDate (fetch k) = processDate (fetch' k)) :
    runScan fetch w0 log10 = runScan fetch' w0 log10
    ∧ ((∃ e, runScan fetch w0 log10 = .error e)
        ↔ (locate fetch w0).found = [])
    ∧ (∀ e, runScan fetch w0 log10 = .error e → e = noSessionsMessage) := by
  have hloc : locate fetch w0 = locate fetch' w0 := by
    unfold locate
    exact locateLoop_congr fetch fetch' w0 hsame _ 0 ⟨[], []⟩
  refine ⟨by unfold runScan; rw [hloc], ?_, ?_⟩
  · constructor
    · rintro ⟨e, he⟩
      unfold runScan runPipeline at he
      by_cases hz : (locate fetch w0).found.length = 0
      · exact List.length_eq_zero.mp hz
      · rw [if_neg hz] at he
        exact absurd he (by simp)
    · intro hnil
      refine ⟨noSessionsMessage, ?_⟩
      unfold runScan runPipeline
      rw [hnil]
      rfl
  · intro e he
    unfold runScan runPipeline at he
    by_cases hz : (locate fetch w0).found.length = 0
    · rw [if_pos hz] at he
      injection he with h'
      exact h'.symm
    · rw [if_neg hz] at he
      exact absurd he (by simp)

/-- Witness for C4: two oracles failing on every date in different ways
(thrown network error vs non-success status) produce identical runs,
and the run's error is exactly the no-sessions message. -/
theorem claim4_witness :
    runScan alwaysFail 5 zeroLog = runScan alwaysNotOk 5 zeroLog
    ∧ runScan alwaysFail 5 zeroLog = .error noSessionsMessage := by
  obtain ⟨heq, hiff, hmsg⟩ :=
    claim4_failure_policy alwaysFail alwaysNotOk 5 zeroLog (fun _ => rfl)
  have hnil : (locate alwaysFail 5).found = [] := by decide
  obtain ⟨e, he⟩ := hiff.mpr hnil
  exact ⟨heq, hmsg e he ▸ he⟩

/-- Claim C5 (amended): a weekend day is skipped without a fetch
attempt, but every day walked — weekend or not — counts against the
lookback budget, whose guard is sessionsFound + calendarDaysWalked ≤
neededDays + maxLookback; hence every attempted day offset is at most
neededDays + maxLookback + 1 = 18 and at most neededDays sessions are
collected.  The number of non-weekend data-less days tolerated is NOT
capped at 12: it depends on the start weekday (see the counterexample,
14 from a Friday). -/
theorem claim5_weekend_budget (fetch : ℕ → FetchOutcome) (w0 : ℕ) :
    (locate fetch w0).found.length ≤ neededDays
    ∧ ∀ k ∈ (locate fetch w0).attempts,
        ((w0 + 6 * k) % 7 ≠ 6 ∧ (w0 + 6 * k) % 7 ≠ 0)
        ∧ k ≤ neededDays + maxLookback + 1 := by
  have h := locateLoop_invariant fetch w0 (neededDays + maxLookback + 1) 0
    ⟨[], []⟩ (by simp) (by simp [neededDays])
  exact ⟨h.2, h.1⟩

/-- Witness for C5 (amended) on the always-failing oracle from a
Friday: day offset 1 is attempted, is not a weekend, and respects the
calendar ceiling. -/
theorem claim5_witness :
    (locate alwaysFail 5).found.length ≤ neededDays
    ∧ 1 ∈ (locate alwaysFail 5).attempts
    ∧ ((5 + 6 * 1) % 7 ≠ 6 ∧ (5 + 6 * 1) % 7 ≠ 0)
    ∧ 1 ≤ neededDays + maxLookback + 1 := by
  obtain ⟨h1, h2⟩ := claim5_weekend_budget alwaysFail 5
  exact ⟨h1, by decide, (h2 1 (by decide)).1, (h2 1 (by decide)).2⟩

/-- Counterexample to C5 as stated: starting on a Friday with no data
retrievable at all, the locator attempts 14 distinct non-weekend
data-less days — more than the claimed tolerance of 12 — because
weekend days consumed part of the calendar budget on other starts but
not here. -/
theorem claim5_counterexample :
    (locate alwaysFail 5).attempts
      = [1, 2, 3, 4, 7, 8, 9, 10, 11, 14, 15, 16, 17, 18]
    ∧ (locate alwaysFail 5).found = []
    ∧ maxLookback < (locate alwaysFail 5).attempts.length := by
  exact ⟨by decide, by decide, by decide⟩

/-- Claim C6 (amended): on success, daysAnalyzed equals the number of
sessions the locator retrieved with a non-empty equity map (whether or
not any of their rows later pass the data-quality gate), and is at
least 1; every retrieved session map is non-empty. -/
theorem claim6_days_analyzed (fetch : ℕ → FetchOutcome) (w0 : ℕ)
    (log10 : ℚ → ℚ) (out : Output)
    (h : runScan fetch w0 log10 = .ok out) :
    out.daysAnalyzed = (locate fetch w0).found.length
    ∧ 1 ≤ out.daysAnalyzed
    ∧ ∀ m ∈ (locate fetch w0).found, m ≠ [] := by
  unfold runScan at h
  obtain ⟨hz, hd, -⟩ := runPipeline_ok_elim _ _ _ h
  refine ⟨hd, by omega, locate_found_nonempty fetch w0⟩

/-- Witness for C6 (amended) on a successful five-session run. -/
theorem claim6_witness :
    runScan alwaysGood 5 zeroLog = .ok outGood
    ∧ outGood.daysAnalyzed = (locate alwaysGood 5).found.length
    ∧ 1 ≤ outGood.daysAnalyzed
    ∧ dayGood ∈ (locate alwaysGood 5).found
    ∧ dayGood ≠ [] := by
  have h := runScan_alwaysGood_eval
  obtain ⟨h1, h2, h3⟩ := claim6_days_analyzed alwaysGood 5 zeroLog outGood h
  exact ⟨h, h1, h2, by decide, h3 dayGood (by decide)⟩

/-- Counterexample to C6 as stated: an oracle returning only
zero-volume equity rows yields a successful run with daysAnalyzed 5,
yet zero sessions contributed any row to the aggregator. -/
theorem claim6_counterexample :
    runScan alwaysZeroVolume 5 zeroLog = .ok ⟨5, []⟩
    ∧ specContributingSessions (locate alwaysZeroVolume 5).found = 0
    ∧ (⟨5, []⟩ : Output).daysAnalyzed
        ≠ specContributingSessions (locate alwaysZeroVolume 5).found := by
  exact ⟨runScan_zeroVol_eval, by decide, by decide⟩

end NSE
